import Mathlib

/-!
Verification of the RAG-MediBot pipeline (app.py, embed_texts.py,
pinecone_upload.py, extract_texts.py) against its specification.

The Python sources are shallowly embedded: pure string manipulation is
modelled over `String` (Lean strings are lists of Unicode scalar values,
matching Python's code-point view of `str`), remote HTTP calls become
explicit outcome parameters, and the uploader's remote side effects become
an explicit effect trace.  Python string primitives (`strip`, `split`,
`join`, slicing) are re-implemented by structural recursion over
`String.data` so that every definition evaluates by kernel reduction.
-/

/-! ## Python string primitives -/

/-- Python `s[:n]` on a `str` (take the first `n` code points). -/
def pySlice (s : String) (n : Nat) : String := ⟨s.data.take n⟩

/-- Python `s.strip()`: remove leading and trailing whitespace. -/
def pyStrip (s : String) : String :=
  ⟨((s.data.dropWhile Char.isWhitespace).reverse.dropWhile Char.isWhitespace).reverse⟩

/-- Python `sep.join(parts)`. -/
def pyJoin (sep : String) : List String → String
  | [] => ""
  | [x] => x
  | x :: y :: rest => x ++ sep ++ pyJoin sep (y :: rest)

/-- Worker for `pySplit`: scans the character list, splitting at each
occurrence of `sep`; `acc` holds the current field reversed.  One unit of
fuel is spent per examined character, so fuel `length` suffices. -/
def pySplitGo (sep : List Char) : Nat → List Char → List Char → List (List Char)
  | _, [], acc => [acc.reverse]
  | 0, s, acc => [acc.reverse ++ s]
  | fuel + 1, c :: rest, acc =>
    if sep.isPrefixOf (c :: rest) then
      acc.reverse :: pySplitGo sep fuel ((c :: rest).drop sep.length) []
    else
      pySplitGo sep fuel rest (c :: acc)

/-- Python `s.split(sep)` for a non-empty separator `sep`. -/
def pySplit (s sep : String) : List String :=
  (pySplitGo sep.data s.data.length s.data []).map fun l => ⟨l⟩

/-- Python truthiness-based `x or y` where `x` is an optional string
(`none` models a missing key / `None`, `some ""` is falsy too). -/
def pyOr (a : Option String) (b : String) : String :=
  match a with
  | none => b
  | some s => if s = "" then b else s

/-- Total number of characters in a list of strings (no separators). -/
def partsLen (l : List String) : Nat := (l.map String.length).sum

/-! ## app.py: metadata values and `build_context_from_matches`

A Pinecone match's `metadata` value can be a mapping, a plain string, an
attribute-bearing SDK object, or `None`.  A mapping is modelled as an
association list of string keys/values (Python dict truthiness = being
non-empty); an attribute object carries optional `preview`/`text`
attributes, and `objRaise` models an object whose attribute access raises. -/

inductive Meta where
  | noneV : Meta
  | dict (entries : List (String × String)) : Meta
  | str (s : String) : Meta
  | objAttrs (previewAttr textAttr : Option String) : Meta
  | objRaise : Meta
deriving DecidableEq

/-- Python `d.get(k)` on the association-list model of a dict. -/
def dictGet (entries : List (String × String)) (k : String) : Option String :=
  (entries.find? fun e => e.1 = k).map fun e => e.2

/-- Python truthiness of a metadata value. -/
def Meta.truthy : Meta → Bool
  | .noneV => false
  | .dict entries => !entries.isEmpty
  | .str s => s ≠ ""
  | .objAttrs _ _ => true
  | .objRaise => true

/-- The preview-extraction chain of `build_context_from_matches`
(src/app.py lines 119-132) applied to an (already `or {}`-normalized)
metadata value: for a dict, `meta.get("preview") or meta.get("text") or
meta.get("content") or meta.get("chunk") or ""`; otherwise
`getattr(meta, "preview", "") or getattr(meta, "text", "")` guarded by
`try/except`; and if that is falsy and `meta` is a non-blank string, its
stripped value. -/
def metaPreviewRaw : Meta → String
  | .dict entries =>
    pyOr (dictGet entries "preview")
      (pyOr (dictGet entries "text")
        (pyOr (dictGet entries "content") (pyOr (dictGet entries "chunk") "")))
  | .str s => if pyStrip s = "" then "" else pyStrip s
  | .objAttrs p t => pyOr p (pyOr t "")
  | .objRaise => ""
  | .noneV => ""

/-- `meta = m.get("metadata", {}) or {}` followed by the preview chain.
A match is represented by its metadata field (`none` = key absent),
the only field `build_context_from_matches` reads. -/
def matchPreview (mf : Option Meta) : String :=
  let meta := mf.getD (Meta.dict [])
  let meta := if meta.truthy then meta else Meta.dict []
  metaPreviewRaw meta

/-- The accumulation loop of `build_context_from_matches` (src/app.py
lines 115-140): skip matches with no usable preview; if adding a preview
would push the running total past `max_chars`, append its prefix of the
remaining budget and stop; otherwise append it whole and continue. -/
def bcParts : List (Option Meta) → Nat → Nat → List String
  | [], _, _ => []
  | mf :: rest, max_chars, total =>
    let preview := matchPreview mf
    if preview = "" then bcParts rest max_chars total
    else if max_chars < total + preview.length then
      [pySlice preview (max_chars - total)]
    else preview :: bcParts rest max_chars (total + preview.length)

/-- `build_context_from_matches` (src/app.py lines 110-142):
`"\n\n".join(parts).strip()` over the accumulated parts. -/
def build_context_from_matches (ms : List (Option Meta)) (max_chars : Nat) : String :=
  pyStrip (pyJoin "\n\n" (bcParts ms max_chars 0))

/-! ## C1 groundwork -/

theorem pySlice_length (s : String) (n : Nat) : (pySlice s n).length = min n s.length := by
  show (List.take n s.data).length = min n s.data.length
  simp [List.length_take]

theorem bcParts_partsLen_le (ms : List (Option Meta)) :
    ∀ max_chars total, total ≤ max_chars →
      total + partsLen (bcParts ms max_chars total) ≤ max_chars := by
  induction ms with
  | nil => intro mc total h; simpa [bcParts, partsLen]
  | cons mf rest ih =>
    intro mc total h
    by_cases hp : matchPreview mf = ""
    · simpa [bcParts, hp] using ih mc total h
    · by_cases hover : mc < total + (matchPreview mf).length
      · simp only [bcParts, hp, hover, if_true, if_false, if_neg hp, if_pos hover]
        simp only [partsLen, List.map_cons, List.map_nil, List.sum_cons, List.sum_nil,
          pySlice_length]
        omega
      · simp only [bcParts, if_neg hp, if_neg hover]
        simp only [partsLen, List.map_cons, List.sum_cons]
        have := ih mc (total + (matchPreview mf).length) (by omega)
        simp only [partsLen] at this
        omega

/-- C1 (counterexample): the claim that the string returned by
`build_context_from_matches` — including the blank-line separators — has
length at most `maxChars` is false.  With two matches whose previews have
lengths 2 and 1 and budget `maxChars = 3`, both previews pass the budget
check (running total 3 ≤ 3), but the joined and stripped result
`"aa\n\nb"` has length 5 > 3: the loop's running character count never
includes the two-character separators inserted between parts. -/
theorem c1_context_budget_cex :
    ¬ (build_context_from_matches
        [some (Meta.dict [("preview", "aa")]), some (Meta.dict [("preview", "b")])]
        3).length ≤ 3 := by decide

/-- C1 (amended): for every list of matches and every budget `maxChars`,
the total number of characters of the parts selected by
`build_context_from_matches` — excluding the blank-line separators the
final join inserts — is at most `maxChars`; the returned string itself can
exceed the budget only by the uncounted two-character separators. -/
theorem c1_context_budget_amended (ms : List (Option Meta)) (max_chars : Nat) :
    partsLen (bcParts ms max_chars 0) ≤ max_chars := by
  simpa using bcParts_partsLen_le ms max_chars 0 (Nat.zero_le _)

/-! ## app.py: `query_pinecone` response normalization

The raw Pinecone response may present each match as a mapping (`dict`) or
as an attribute-bearing object.  Ids and scores are carried opaquely with
type parameters (scores are floats the code never computes with).  For the
object shape, `metaAbsent`/`metaRaises` describe what
`getattr(m, "metadata", {})` does: `none` metadata models an absent
attribute and `raises` an attribute access that throws. -/

inductive RawMatch (ι σ : Type) where
  | dict (id : Option ι) (score : Option σ) (metadata : Option Meta) : RawMatch ι σ
  | obj (id : Option ι) (score : Option σ) (metadata : Option Meta) (raises : Bool) :
      RawMatch ι σ

/-- The uniform match record produced by `query_pinecone`:
keys `id`, `score`, `metadata`. -/
structure NormMatch (ι σ : Type) where
  id : Option ι
  score : Option σ
  metadata : Meta

/-- Normalization of one raw match (src/app.py lines 85-106).
Mapping shape: `m.get("id")`, `m.get("score")`, `m.get("metadata", {})`.
Object shape: `getattr(m, "id", None)`, `getattr(m, "score", None)`, and
`md = getattr(m, "metadata", {}) or {}` inside `try/except` with
`md = {}` on exception. -/
def normalizeOne : RawMatch ι σ → NormMatch ι σ
  | .dict id score md => ⟨id, score, md.getD (Meta.dict [])⟩
  | .obj id score md raises =>
    ⟨id, score,
      if raises then Meta.dict []
      else
        let v := md.getD (Meta.dict [])
        if v.truthy then v else Meta.dict []⟩

/-- `query_pinecone`'s match loop (src/app.py lines 78-107): build the
normalized list by appending one record per raw match, in order. -/
def query_pinecone : List (RawMatch ι σ) → List (NormMatch ι σ)
  | [] => []
  | m :: rest => normalizeOne m :: query_pinecone rest

/-! ## app.py: `generate_answer_ollama` and its extractive fallback -/

/-- Outcome of the `requests.post` call to Ollama, as seen by
`generate_answer_ollama`: either a parsed JSON body (a dict carrying a
`"response"` string, or some other JSON whose `str()` is given), or an
exception with its message. -/
inductive OllamaOutcome where
  | okResponse (response : String) : OllamaOutcome
  | okOther (jsonStr : String) : OllamaOutcome
  | err (msg : String) : OllamaOutcome

/-- The static message returned when the generation call fails and no
context was retrieved (src/app.py line 183). -/
def UNAVAILABLE_MSG : String :=
  "Local LLM unavailable and no retrieved context. Please try again later or consult a medical professional."

/-- Leading part of the extractive-fallback template (src/app.py lines 192-194). -/
def FALLBACK_HEAD : String :=
  "The local language model is currently unavailable or returned an error. Below are the most relevant excerpts from the documents:\n\n"

/-- Trailing part of the extractive-fallback template (src/app.py lines 195-197). -/
def FALLBACK_TAIL : String :=
  "\n\nThis is NOT a diagnosis. If you have severe or urgent symptoms (chest pain, difficulty breathing, heavy bleeding), call emergency services immediately. For a full evaluation, consult a qualified healthcare professional."

/-- `[p.strip() for p in context.split("\n\n") if p.strip()]`
(src/app.py line 188). -/
def contextSnippets (context : String) : List String :=
  ((pySplit context "\n\n").map pyStrip).filter fun p => p ≠ ""

/-- `ollama_fallback_extractive` (src/app.py lines 180-201). -/
def ollama_fallback_extractive (context : String) (note_error : String) : String :=
  if pyStrip context = "" then
    if note_error ≠ "" then UNAVAILABLE_MSG ++ " (error: " ++ note_error ++ ")"
    else UNAVAILABLE_MSG
  else
    let summary := pyJoin "\n\n" ((contextSnippets context).take 3)
    let fallback := FALLBACK_HEAD ++ summary ++ FALLBACK_TAIL
    if note_error ≠ "" then fallback ++ "\n\n[debug: " ++ note_error ++ "]"
    else fallback

/-- `generate_answer_ollama` (src/app.py lines 145-177): on a successful
call return the trimmed `"response"` field (or `str(j)` for other JSON);
on any exception return the extractive fallback built from the context and
the error text.  Totality of this function is the "never raises" contract. -/
def generate_answer_ollama (context : String) (_question : String)
    (outcome : OllamaOutcome) : String :=
  match outcome with
  | .okResponse r => pyStrip r
  | .okOther s => s
  | .err e => ollama_fallback_extractive context e

theorem query_pinecone_eq_map (raws : List (RawMatch ι σ)) :
    query_pinecone raws = raws.map normalizeOne := by
  induction raws with
  | nil => rfl
  | cons m rest ih => simp [query_pinecone, ih]

/-- C8 (confirmed): `query_pinecone` coerces both mapping-shaped records
and attribute-bearing objects into the uniform record with keys
`id`/`score`/`metadata`, one output per input in the same order (the
output is pointwise `normalizeOne` of the raw list), a missing `id` or
`score` becomes `none` (null), a missing `metadata` becomes the empty
mapping (for the object shape also when the attribute access raises), and
the function is total (never raises). -/
theorem c8_query_normalization (ι σ : Type) (raws : List (RawMatch ι σ)) :
    (query_pinecone raws).length = raws.length ∧
    (∀ k, (query_pinecone raws).get? k =
      Option.map normalizeOne (raws.get? k)) ∧
    (∀ sc md, normalizeOne (RawMatch.dict (none : Option ι) (sc : Option σ) md) =
      ⟨none, sc, md.getD (Meta.dict [])⟩) ∧
    (∀ id md, normalizeOne (RawMatch.dict (id : Option ι) (none : Option σ) md) =
      ⟨id, none, md.getD (Meta.dict [])⟩) ∧
    (∀ id sc, normalizeOne (RawMatch.dict (id : Option ι) (sc : Option σ) none) =
      ⟨id, sc, Meta.dict []⟩) ∧
    (∀ id sc, normalizeOne (RawMatch.obj (id : Option ι) (sc : Option σ) none false) =
      ⟨id, sc, Meta.dict []⟩) ∧
    (∀ id sc md, normalizeOne (RawMatch.obj (id : Option ι) (sc : Option σ) md true) =
      ⟨id, sc, Meta.dict []⟩) := by
  refine ⟨?_, ?_, ?_, ?_, ?_, ?_, ?_⟩
  · simp [query_pinecone_eq_map]
  · intro k; simp [query_pinecone_eq_map, List.get?_map]
  · intro sc md; rfl
  · intro id md; rfl
  · intro id sc; rfl
  · intro id sc; rfl
  · intro id sc md; rfl

set_option maxRecDepth 8000 in
/-- C7 (confirmed): when the generation call fails, the answer is exactly
the extractive fallback (the function is total, so nothing propagates to
the caller); on empty or whitespace-only context it is the static
unavailable message with the error detail appended when present; on
non-blank context it is non-empty and wraps the first three blank-line
separated (non-blank, stripped) segments of the context in the fixed
disclaimer template, with the error detail appended. -/
theorem c7_generate_fallback (context question err : String) :
    generate_answer_ollama context question (.err err) =
      ollama_fallback_extractive context err ∧
    (pyStrip context = "" →
      generate_answer_ollama context question (.err err) =
        if err ≠ "" then UNAVAILABLE_MSG ++ " (error: " ++ err ++ ")"
        else UNAVAILABLE_MSG) ∧
    (pyStrip context ≠ "" →
      0 < (generate_answer_ollama context question (.err err)).length ∧
      generate_answer_ollama context question (.err err) =
        FALLBACK_HEAD ++ pyJoin "\n\n" ((contextSnippets context).take 3) ++
          FALLBACK_TAIL ++
          (if err ≠ "" then "\n\n[debug: " ++ err ++ "]" else "")) := by
  refine ⟨rfl, ?_, ?_⟩
  · intro h
    simp [generate_answer_ollama, ollama_fallback_extractive, h]
  · intro h
    have hh : 0 < FALLBACK_HEAD.length := by decide
    constructor
    · by_cases he : err = "" <;>
        simp [generate_answer_ollama, ollama_fallback_extractive, h, he,
          String.length_append] <;> omega
    · by_cases he : err = "" <;>
        simp [generate_answer_ollama, ollama_fallback_extractive, h, he,
          String.append_assoc, String.append_empty]

/-- C7 (witness): the theorem instantiated at the one-word context `"a"`,
whose only snippet is `"a"` itself, with an empty error detail. -/
theorem c7_generate_fallback_witness :
    generate_answer_ollama "a" "q" (.err "") =
      FALLBACK_HEAD ++ "a" ++ FALLBACK_TAIL := by
  have h := (c7_generate_fallback "a" "q" "").2.2 (by decide)
  have hs : (contextSnippets "a").take 3 = ["a"] := by decide
  rw [h.2, hs]
  simp [pyJoin, String.append_empty]

/-! ## embed_texts.py: `groq_embed_one`

The HTTP call is modelled by an environment function `outs : Nat →
HttpOutcome` giving the outcome of each 1-indexed attempt.  A 200 response
carries a parsed JSON body; `raise_for_status` on a non-200 response
becomes `httpErr status` (`httpErrNoStatus` when the exception carries no
response); any other `requests` failure becomes `netErr`.  Embedding
vectors are carried as `List Int` stand-ins for the float lists the code
never computes with. -/

/-- One element of the response's `"data"` list: it may or may not carry
an `"embedding"` value (`some []` is a present but falsy empty vector). -/
structure DataElem where
  embedding : Option (List Int)
  elemRepr : String
deriving DecidableEq

/-- The `"data"` field of a 200 response body: a JSON array or some
non-array value. -/
inductive DataVal where
  | arr (elems : List DataElem) : DataVal
  | nonArr : DataVal
deriving DecidableEq

/-- A parsed 200-response body: optional `"data"` field, optional
top-level `"embedding"` field, and `bodyRepr` standing for Python's
`str(data)` used in the error message. -/
structure GroqBody where
  data : Option DataVal
  embedding : Option (List Int)
  bodyRepr : String
deriving DecidableEq

/-- Outcome of one `requests.post` attempt inside `groq_embed_one`. -/
inductive HttpOutcome where
  | ok (body : GroqBody) : HttpOutcome
  | httpErr (status : Nat) : HttpOutcome
  | httpErrNoStatus : HttpOutcome
  | netErr (msg : String) : HttpOutcome

/-- What `groq_embed_one` returns on a 200 response: the embedding vector,
or — when the first `"data"` element lacks a truthy `"embedding"` — that
raw element itself (`emb = data["data"][0].get("embedding") or
data["data"][0]`). -/
inductive EmbResult where
  | vec (v : List Int) : EmbResult
  | rawElem (e : DataElem) : EmbResult
deriving DecidableEq

/-- The exception that propagates out of `groq_embed_one`. -/
inductive GroqError where
  | http (status : Nat) : GroqError
  | httpNoStatus : GroqError
  | net (msg : String) : GroqError
  | parse (msg : String) : GroqError
deriving DecidableEq

/-- Final result of a `groq_embed_one` call. -/
inductive CallResult where
  | success (r : EmbResult) : CallResult
  | failure (e : GroqError) : CallResult
deriving DecidableEq

/-- The 200-response parsing of `groq_embed_one` (src/embed_texts.py lines
66-74): if `"data"` is a non-empty list, return its first element's
embedding, or the element itself when that is falsy; else if a top-level
`"embedding"` key exists, return it; otherwise raise `ValueError` with the
payload truncated to 1000 characters. -/
def parseGroq (b : GroqBody) : Except String EmbResult :=
  match b.data with
  | some (.arr (e :: _)) =>
    match e.embedding with
    | some v => if v = [] then .ok (.rawElem e) else .ok (.vec v)
    | none => .ok (.rawElem e)
  | _ =>
    match b.embedding with
    | some v => .ok (.vec v)
    | none => .error ("Unexpected Groq embedding response: " ++ pySlice b.bodyRepr 1000)

/-- The retry loop of `groq_embed_one` (src/embed_texts.py lines 58-90).
`attempt` is the 1-indexed attempt number and the second argument is the
number of retries still allowed (`MAX_RETRIES - attempt`); it returns the
final result together with the list of backoff sleeps (`2 ** attempt`
seconds before each retry).  A 4xx HTTP status propagates immediately;
every other error (network, non-4xx HTTP, and the `ValueError` from
parsing, all caught by the two `except` arms) sleeps and retries while
retries remain, else propagates. -/
def groqAttempts (outs : Nat → HttpOutcome) : Nat → Nat → CallResult × List Nat
  | attempt, 0 =>
    (match outs attempt with
     | .ok body =>
       match parseGroq body with
       | .ok r => .success r
       | .error m => .failure (.parse m)
     | .httpErr s => .failure (.http s)
     | .httpErrNoStatus => .failure .httpNoStatus
     | .netErr m => .failure (.net m), [])
  | attempt, r + 1 =>
    match outs attempt with
    | .ok body =>
      match parseGroq body with
      | .ok res => (.success res, [])
      | .error _ =>
        let p := groqAttempts outs (attempt + 1) r
        (p.1, 2 ^ attempt :: p.2)
    | .httpErr s =>
      if 400 ≤ s ∧ s < 500 then (.failure (.http s), [])
      else
        let p := groqAttempts outs (attempt + 1) r
        (p.1, 2 ^ attempt :: p.2)
    | .httpErrNoStatus =>
      let p := groqAttempts outs (attempt + 1) r
      (p.1, 2 ^ attempt :: p.2)
    | .netErr _ =>
      let p := groqAttempts outs (attempt + 1) r
      (p.1, 2 ^ attempt :: p.2)

/-- `groq_embed_one` with retry cap `maxRetries` (`MAX_RETRIES`): start at
attempt 1 with `maxRetries - 1` retries remaining (the code raises on a
retryable error once `attempt >= MAX_RETRIES`). -/
def groq_embed_one (maxRetries : Nat) (outs : Nat → HttpOutcome) : CallResult × List Nat :=
  groqAttempts outs 1 (maxRetries - 1)

/-- Classifies an attempt outcome the loop treats as transient (sleeps and
retries while retries remain), together with the error it would propagate
once retries are exhausted: network errors, HTTP errors that are not 4xx
(including a status-less HTTP error), and parse failures of a 200 body. -/
def transientOutcome : HttpOutcome → Option GroqError
  | .ok b =>
    match parseGroq b with
    | .ok _ => none
    | .error m => some (.parse m)
  | .httpErr s => if 400 ≤ s ∧ s < 500 then none else some (.http s)
  | .httpErrNoStatus => some .httpNoStatus
  | .netErr m => some (.net m)

/-- The outcomes C3 talks about: network errors and non-4xx HTTP errors
(a strict subset of `transientOutcome`, which also retries parse errors). -/
def netOrServerErr : HttpOutcome → Option GroqError
  | .httpErr s => if 400 ≤ s ∧ s < 500 then none else some (.http s)
  | .httpErrNoStatus => some .httpNoStatus
  | .netErr m => some (.net m)
  | .ok _ => none

theorem netOrServerErr_transient {o : HttpOutcome} {e : GroqError}
    (h : netOrServerErr o = some e) : transientOutcome o = some e := by
  cases o <;> simp_all [netOrServerErr, transientOutcome]

theorem groqAttempts_ok (outs : Nat → HttpOutcome) (k : Nat) (b : GroqBody)
    (res : EmbResult) (hb : outs k = .ok b) (hp : parseGroq b = .ok res) :
    ∀ rem, groqAttempts outs k rem = (.success res, []) := by
  intro rem; cases rem <;> simp [groqAttempts, hb, hp]

theorem groqAttempts_http4xx (outs : Nat → HttpOutcome) (k s : Nat)
    (hs : outs k = .httpErr s) (h4 : 400 ≤ s ∧ s < 500) :
    ∀ rem, groqAttempts outs k rem = (.failure (.http s), []) := by
  intro rem; cases rem <;> simp [groqAttempts, hs, h4]

theorem groqAttempts_zero_fail (outs : Nat → HttpOutcome) (k : Nat) (e : GroqError)
    (h : transientOutcome (outs k) = some e) :
    groqAttempts outs k 0 = (.failure e, []) := by
  cases ho : outs k with
  | ok b =>
    rw [ho] at h
    cases hp : parseGroq b with
    | ok r => simp [transientOutcome, hp] at h
    | error m =>
      simp only [transientOutcome, hp] at h
      cases h
      simp [groqAttempts, ho, hp]
  | httpErr s =>
    rw [ho] at h
    by_cases h4 : 400 ≤ s ∧ s < 500
    · simp [transientOutcome, h4] at h
    · simp only [transientOutcome, if_neg h4] at h
      cases h
      simp [groqAttempts, ho]
  | httpErrNoStatus =>
    rw [ho] at h
    simp only [transientOutcome] at h
    cases h
    simp [groqAttempts, ho]
  | netErr m =>
    rw [ho] at h
    simp only [transientOutcome] at h
    cases h
    simp [groqAttempts, ho]

/-- Skipping a prefix of transient attempts: if every attempt from
`attempt` up to (excluding) `k` is transient, the loop reaches attempt `k`
having slept `2 ^ a` seconds for each attempt `a` in between. -/
theorem groqAttempts_skip (outs : Nat → HttpOutcome) (errs : Nat → GroqError) :
    ∀ rem attempt k, attempt ≤ k → k ≤ attempt + rem →
      (∀ a, attempt ≤ a → a < k → transientOutcome (outs a) = some (errs a)) →
      groqAttempts outs attempt rem =
        ((groqAttempts outs k (attempt + rem - k)).1,
          ((List.range' attempt (k - attempt)).map fun a => 2 ^ a) ++
            (groqAttempts outs k (attempt + rem - k)).2) := by
  intro rem
  induction rem with
  | zero =>
    intro attempt k h1 h2 _
    have hk : k = attempt := by omega
    subst hk
    simp
  | succ r ih =>
    intro attempt k h1 h2 h
    by_cases hk : k = attempt
    · subst hk
      simp
    · have hlt : attempt < k := by omega
      have htr := h attempt (Nat.le_refl _) hlt
      have hrec := ih (attempt + 1) k (by omega) (by omega)
        (fun a ha hb => h a (by omega) hb)
      have harith : attempt + 1 + r - k = attempt + (r + 1) - k := by omega
      have hrange : k - attempt = (k - (attempt + 1)) + 1 := by omega
      rw [harith] at hrec
      cases ho : outs attempt with
      | ok b =>
        rw [ho] at htr
        cases hp : parseGroq b with
        | ok res => simp [transientOutcome, hp] at htr
        | error m =>
          simp only [groqAttempts, ho, hp]
          rw [hrec, hrange, List.range'_succ, List.map_cons, List.cons_append]
      | httpErr s =>
        rw [ho] at htr
        by_cases h4 : 400 ≤ s ∧ s < 500
        · simp [transientOutcome, h4] at htr
        · simp only [groqAttempts, ho, if_neg h4]
          rw [hrec, hrange, List.range'_succ, List.map_cons, List.cons_append]
      | httpErrNoStatus =>
        simp only [groqAttempts, ho]
        rw [hrec, hrange, List.range'_succ, List.map_cons, List.cons_append]
      | netErr m =>
        simp only [groqAttempts, ho]
        rw [hrec, hrange, List.range'_succ, List.map_cons, List.cons_append]

/-- C2 (counterexample): the claim that HTTP 429 on the first two attempts
followed by 200 with a valid embedding on the third, under
`MAX_RETRIES = 3`, yields the successful vector with no error is false: 429
lies in the 400-499 client-error range, which `groq_embed_one` re-raises
immediately, so the call fails on the very first attempt with no retry and
no backoff sleep. -/
theorem c2_retry_429_cex :
    groq_embed_one 3
      (fun a => if a ≤ 2 then HttpOutcome.httpErr 429
        else HttpOutcome.ok ⟨some (DataVal.arr [⟨some [7, 8], ""⟩]), none, ""⟩) =
    (.failure (.http 429), []) := by decide

/-- C2 (amended): HTTP 429 is a client error and propagates from the first
attempt without retry; the retry-then-succeed scenario instead holds for
non-4xx statuses: receiving HTTP 500 on the first two attempts and HTTP
200 whose body carries a valid (non-empty) embedding on the third, with
`MAX_RETRIES = 3`, returns the successful attempt's vector with no error,
after backoff sleeps of 2 and 4 seconds. -/
theorem c2_retry_500_amended (v : List Int) (outs : Nat → HttpOutcome)
    (hv : v ≠ [])
    (h1 : outs 1 = .httpErr 500) (h2 : outs 2 = .httpErr 500)
    (h3 : outs 3 = .ok ⟨some (.arr [⟨some v, ""⟩]), none, ""⟩) :
    groq_embed_one 3 outs = (.success (.vec v), [2, 4]) := by
  simp +decide [groq_embed_one, groqAttempts, h1, h2, h3, parseGroq, hv]

/-- C2 (witness): the amended scenario at the concrete vector `[7, 8]`. -/
theorem c2_retry_500_amended_witness :
    groq_embed_one 3
      (fun a => if a ≤ 2 then HttpOutcome.httpErr 500
        else HttpOutcome.ok ⟨some (.arr [⟨some [7, 8], ""⟩]), none, ""⟩) =
    (.success (.vec [7, 8]), [2, 4]) :=
  c2_retry_500_amended [7, 8] _ (by decide) rfl rfl rfl

/-- C3 (confirmed): in `groq_embed_one`, (1) an HTTP error with status in
400-499 propagates immediately — even right after earlier retried
attempts, no further attempt or sleep happens; (2) if network errors or
non-4xx HTTP errors occur on every attempt up to `MAX_RETRIES`, each
attempt `a < MAX_RETRIES` sleeps `2 ^ a` seconds and the last attempt's
error propagates; (3) if such errors occur on every attempt before some
attempt `k ≤ MAX_RETRIES` that succeeds, the call returns that attempt's
parsed result after the same backoff sleeps. -/
theorem c3_backoff_policy :
    (∀ (maxRetries k s : Nat) (outs : Nat → HttpOutcome) (errs : Nat → GroqError),
      1 ≤ k → k ≤ maxRetries →
      (∀ a, 1 ≤ a → a < k → netOrServerErr (outs a) = some (errs a)) →
      outs k = .httpErr s → 400 ≤ s → s < 500 →
      groq_embed_one maxRetries outs =
        (.failure (.http s), (List.range' 1 (k - 1)).map fun a => 2 ^ a)) ∧
    (∀ (maxRetries : Nat) (outs : Nat → HttpOutcome) (errs : Nat → GroqError),
      1 ≤ maxRetries →
      (∀ a, 1 ≤ a → a ≤ maxRetries → netOrServerErr (outs a) = some (errs a)) →
      groq_embed_one maxRetries outs =
        (.failure (errs maxRetries),
          (List.range' 1 (maxRetries - 1)).map fun a => 2 ^ a)) ∧
    (∀ (maxRetries k : Nat) (outs : Nat → HttpOutcome) (errs : Nat → GroqError)
        (b : GroqBody) (res : EmbResult),
      1 ≤ k → k ≤ maxRetries →
      (∀ a, 1 ≤ a → a < k → netOrServerErr (outs a) = some (errs a)) →
      outs k = .ok b → parseGroq b = .ok res →
      groq_embed_one maxRetries outs =
        (.success res, (List.range' 1 (k - 1)).map fun a => 2 ^ a)) := by
  refine ⟨?_, ?_, ?_⟩
  · intro mr k s outs errs hk1 hkm h hks h4a h4b
    have hskip := groqAttempts_skip outs errs (mr - 1) 1 k hk1 (by omega)
      (fun a ha hb => netOrServerErr_transient (h a ha hb))
    rw [groq_embed_one, hskip,
      groqAttempts_http4xx outs k s hks ⟨h4a, h4b⟩ (1 + (mr - 1) - k)]
    simp
  · intro mr outs errs hm h
    have hskip := groqAttempts_skip outs errs (mr - 1) 1 mr (by omega) (by omega)
      (fun a ha hb => netOrServerErr_transient (h a ha (by omega)))
    have hz : 1 + (mr - 1) - mr = 0 := by omega
    rw [groq_embed_one, hskip, hz,
      groqAttempts_zero_fail outs mr (errs mr)
        (netOrServerErr_transient (h mr hm (Nat.le_refl _)))]
    simp
  · intro mr k outs errs b res hk1 hkm h hkb hp
    have hskip := groqAttempts_skip outs errs (mr - 1) 1 k hk1 (by omega)
      (fun a ha hb => netOrServerErr_transient (h a ha hb))
    rw [groq_embed_one, hskip, groqAttempts_ok outs k b res hkb hp (1 + (mr - 1) - k)]
    simp

/-- C3 (witness): the three parts at concrete inputs — an immediate 404
failure with no sleep; three network errors exhausting `MAX_RETRIES = 3`
with sleeps 2 and 4; and a 500 followed by a success under
`MAX_RETRIES = 2` with sleep 2. -/
theorem c3_backoff_policy_witness :
    groq_embed_one 3 (fun _ => HttpOutcome.httpErr 404) =
      (.failure (.http 404), []) ∧
    groq_embed_one 3 (fun _ => HttpOutcome.netErr "t") =
      (.failure (.net "t"), [2, 4]) ∧
    groq_embed_one 2
      (fun a => if a = 1 then HttpOutcome.httpErr 500
        else HttpOutcome.ok ⟨some (.arr [⟨some [3], ""⟩]), none, ""⟩) =
      (.success (.vec [3]), [2]) := by
  refine ⟨?_, ?_, ?_⟩
  · have h := c3_backoff_policy.1 3 1 404 (fun _ => HttpOutcome.httpErr 404)
      (fun _ => GroqError.http 404) (by omega) (by omega)
      (by intro a ha hb; omega) rfl (by omega) (by omega)
    simpa using h
  · have h := c3_backoff_policy.2.1 3 (fun _ => HttpOutcome.netErr "t")
      (fun _ => GroqError.net "t") (by omega) (by intro a ha hb; rfl)
    simpa using h
  · have h := c3_backoff_policy.2.2 2 2
      (fun a => if a = 1 then HttpOutcome.httpErr 500
        else HttpOutcome.ok ⟨some (.arr [⟨some [3], ""⟩]), none, ""⟩)
      (fun _ => GroqError.http 500) ⟨some (.arr [⟨some [3], ""⟩]), none, ""⟩
      (.vec [3]) (by omega) (by omega)
      (by intro a ha hb
          have : a = 1 := by omega
          subst this
          rfl)
      rfl rfl
    simpa using h

/-- C4 (counterexample): two parts of the claim fail.  (1) A 200 body
whose non-empty `"data"` list's first element lacks an `"embedding"` key
does not fail with a parsing error: `emb = data["data"][0].get("embedding")
or data["data"][0]` returns the raw element itself, a non-vector value.
(2) A body of unexpected shape does raise `ValueError`, but that error is
caught by the generic `except` arm and retried rather than being fatal for
the call: with an unexpected body on attempt 1 and a good body on attempt
2, the call sleeps 2 seconds and succeeds. -/
theorem c4_parse_shape_cex :
    parseGroq ⟨some (DataVal.arr [⟨none, "noemb"⟩]), none, "body"⟩ =
      .ok (.rawElem ⟨none, "noemb"⟩) ∧
    groq_embed_one 3
      (fun a => if a = 1 then HttpOutcome.ok ⟨none, none, "bad"⟩
        else HttpOutcome.ok ⟨some (DataVal.arr [⟨some [5], ""⟩]), none, ""⟩) =
    (.success (.vec [5]), [2]) := by
  exact ⟨rfl, rfl⟩

/-- C4 (amended): on an HTTP-200 body, `groq_embed_one` returns the
embedding vector when the `"data"` list is non-empty and its first element
carries a truthy `"embedding"`, or — failing the `"data"` path — when a
top-level `"embedding"` key exists; when the `"data"` list is non-empty
but its first element has no truthy embedding, the first element itself is
returned (a non-vector value); for any other shape a `ValueError` carrying
the payload truncated to 1000 characters is raised, and that parse error
is caught and retried like a transient error (with backoff) rather than
being fatal for the call. -/
theorem c4_parse_shapes_amended :
    (∀ (v : List Int) (e : String) (rest : List DataElem)
        (emb : Option (List Int)) (r : String), v ≠ [] →
      parseGroq ⟨some (.arr (⟨some v, e⟩ :: rest)), emb, r⟩ = .ok (.vec v)) ∧
    (∀ (b : GroqBody) (v : List Int),
      (b.data = none ∨ b.data = some .nonArr ∨ b.data = some (.arr [])) →
      b.embedding = some v → parseGroq b = .ok (.vec v)) ∧
    (∀ (e : DataElem) (rest : List DataElem) (emb : Option (List Int)) (r : String),
      (e.embedding = none ∨ e.embedding = some []) →
      parseGroq ⟨some (.arr (e :: rest)), emb, r⟩ = .ok (.rawElem e)) ∧
    (∀ b : GroqBody,
      (b.data = none ∨ b.data = some .nonArr ∨ b.data = some (.arr [])) →
      b.embedding = none →
      parseGroq b =
        .error ("Unexpected Groq embedding response: " ++ pySlice b.bodyRepr 1000)) ∧
    (∀ (maxRetries : Nat) (outs : Nat → HttpOutcome) (b : GroqBody) (m : String),
      2 ≤ maxRetries → outs 1 = .ok b → parseGroq b = .error m →
      groq_embed_one maxRetries outs =
        ((groqAttempts outs 2 (maxRetries - 2)).1,
          2 :: (groqAttempts outs 2 (maxRetries - 2)).2)) := by
  refine ⟨?_, ?_, ?_, ?_, ?_⟩
  · intro v e rest emb r hv
    simp [parseGroq, hv]
  · intro b v hd he
    obtain ⟨bd, be, br⟩ := b
    rcases hd with h | h | h <;> cases h <;> cases he <;> rfl
  · intro e rest emb r he
    rcases he with h | h <;> simp [parseGroq, h]
  · intro b hd he
    obtain ⟨bd, be, br⟩ := b
    rcases hd with h | h | h <;> cases h <;> cases he <;> rfl
  · intro mr outs b m hm h1 hp
    have hr : mr - 1 = (mr - 2) + 1 := by omega
    rw [groq_embed_one, hr]
    simp [groqAttempts, h1, hp]

/-- C4 (witness): the amended statement at concrete bodies — a good
`"data"` body, a top-level-embedding body, a first element without
embedding, an unexpected body's error, and the retry of a parse error
under `MAX_RETRIES = 2` (attempt 2 also fails, so the parse error
propagates after one backoff sleep). -/
theorem c4_parse_shapes_amended_witness :
    parseGroq ⟨some (.arr [⟨some [1], ""⟩]), none, ""⟩ = .ok (.vec [1]) ∧
    parseGroq ⟨none, some [2], "x"⟩ = .ok (.vec [2]) ∧
    parseGroq ⟨some (.arr [⟨none, "e"⟩]), some [9], ""⟩ = .ok (.rawElem ⟨none, "e"⟩) ∧
    parseGroq ⟨none, none, "zz"⟩ =
      .error ("Unexpected Groq embedding response: " ++ pySlice "zz" 1000) ∧
    groq_embed_one 2 (fun _ => HttpOutcome.ok ⟨none, none, "zz"⟩) =
      ((groqAttempts (fun _ => HttpOutcome.ok ⟨none, none, "zz"⟩) 2 0).1,
        2 :: (groqAttempts (fun _ => HttpOutcome.ok ⟨none, none, "zz"⟩) 2 0).2) := by
  refine ⟨?_, ?_, ?_, ?_, ?_⟩
  · exact c4_parse_shapes_amended.1 [1] "" [] none "" (by decide)
  · exact c4_parse_shapes_amended.2.1 ⟨none, some [2], "x"⟩ [2] (Or.inl rfl) rfl
  · exact c4_parse_shapes_amended.2.2.1 ⟨none, "e"⟩ [] (some [9]) "" (Or.inl rfl)
  · exact c4_parse_shapes_amended.2.2.2.1 ⟨none, none, "zz"⟩ (Or.inl rfl) rfl
  · exact c4_parse_shapes_amended.2.2.2.2 2 _ ⟨none, none, "zz"⟩
      ("Unexpected Groq embedding response: " ++ pySlice "zz" 1000)
      (by omega) rfl rfl

theorem matchPreview_dict (entries : List (String × String)) :
    matchPreview (some (.dict entries)) = metaPreviewRaw (.dict entries) := by
  cases entries with
  | nil => rfl
  | cons e es => simp [matchPreview, Meta.truthy]

/-- C9 (confirmed): for a mapping metadata, the display text is the first
non-empty value among the fields `preview`, `text`, `content`, `chunk`, in
that order; for a plain-string metadata with non-blank strip, the stripped
string is used directly; and a match whose extracted preview is empty is
skipped by the assembly loop, leaving the processing of the remaining
matches (budget and all) unchanged. -/
theorem c9_preview_priority :
    (∀ (entries : List (String × String)) (p : String),
      dictGet entries "preview" = some p → p ≠ "" →
      matchPreview (some (.dict entries)) = p) ∧
    (∀ (entries : List (String × String)) (t : String),
      (dictGet entries "preview" = none ∨ dictGet entries "preview" = some "") →
      dictGet entries "text" = some t → t ≠ "" →
      matchPreview (some (.dict entries)) = t) ∧
    (∀ (entries : List (String × String)) (c : String),
      (dictGet entries "preview" = none ∨ dictGet entries "preview" = some "") →
      (dictGet entries "text" = none ∨ dictGet entries "text" = some "") →
      dictGet entries "content" = some c → c ≠ "" →
      matchPreview (some (.dict entries)) = c) ∧
    (∀ (entries : List (String × String)) (k : String),
      (dictGet entries "preview" = none ∨ dictGet entries "preview" = some "") →
      (dictGet entries "text" = none ∨ dictGet entries "text" = some "") →
      (dictGet entries "content" = none ∨ dictGet entries "content" = some "") →
      dictGet entries "chunk" = some k → k ≠ "" →
      matchPreview (some (.dict entries)) = k) ∧
    (∀ s : String, pyStrip s ≠ "" →
      matchPreview (some (.str s)) = pyStrip s) ∧
    (∀ (mf : Option Meta) (rest : List (Option Meta)) (mc total : Nat),
      matchPreview mf = "" →
      bcParts (mf :: rest) mc total = bcParts rest mc total) := by
  refine ⟨?_, ?_, ?_, ?_, ?_, ?_⟩
  · intro entries p hp hne
    rw [matchPreview_dict]
    simp [metaPreviewRaw, pyOr, hp, hne]
  · intro entries t hpre ht hne
    rw [matchPreview_dict]
    rcases hpre with h | h <;> simp [metaPreviewRaw, pyOr, h, ht, hne]
  · intro entries c hpre htxt hc hne
    rw [matchPreview_dict]
    rcases hpre with h | h <;> rcases htxt with h2 | h2 <;>
      simp [metaPreviewRaw, pyOr, h, h2, hc, hne]
  · intro entries k hpre htxt hcon hk hne
    rw [matchPreview_dict]
    rcases hpre with h | h <;> rcases htxt with h2 | h2 <;>
      rcases hcon with h3 | h3 <;>
      simp [metaPreviewRaw, pyOr, h, h2, h3, hk, hne]
  · intro s hs
    have hns : s ≠ "" := by
      intro h
      subst h
      exact hs rfl
    simp [matchPreview, Meta.truthy, hns, metaPreviewRaw, hs]
  · intro mf rest mc total h
    simp [bcParts, h]

/-- C9 (witness): the priority chain and the skip behaviour at concrete
metadata values. -/
theorem c9_preview_priority_witness :
    matchPreview (some (.dict [("preview", "P"), ("text", "T")])) = "P" ∧
    matchPreview (some (.dict [("preview", ""), ("text", "T")])) = "T" ∧
    matchPreview (some (.dict [("content", "C"), ("chunk", "K")])) = "C" ∧
    matchPreview (some (.dict [("text", ""), ("chunk", "K")])) = "K" ∧
    matchPreview (some (.str "  s  ")) = "s" ∧
    bcParts [some (.dict []), some (.dict [("preview", "x")])] 10 0 =
      bcParts [some (.dict [("preview", "x")])] 10 0 := by
  refine ⟨?_, ?_, ?_, ?_, ?_, ?_⟩
  · exact c9_preview_priority.1 _ "P" rfl (by decide)
  · exact c9_preview_priority.2.1 _ "T" (Or.inr rfl) rfl (by decide)
  · exact c9_preview_priority.2.2.1 _ "C" (Or.inl rfl) (Or.inl rfl) rfl (by decide)
  · exact c9_preview_priority.2.2.2.1 _ "K" (Or.inl rfl) (Or.inr rfl) (Or.inl rfl)
      rfl (by decide)
  · exact c9_preview_priority.2.2.2.2.1 "  s  " (by decide)
  · exact c9_preview_priority.2.2.2.2.2 _ _ 10 0 rfl

/-! ## pinecone_upload.py: dimension reconciliation and upload

`main` (src/pinecone_upload.py lines 65-121) is modelled as the list of
remote-index operations it performs, in order.  Its environment is the
result of `get_existing_indexes` (`existing`) and of
`try_get_index_dimension` (`lookupDim`, `none` when no strategy could
determine the dimension).  Embedding records are the parsed lines of
`embeddings.jsonl`; metadata is carried opaquely by a type parameter. -/

/-- One parsed line of `embeddings.jsonl`. -/
structure URec (μ : Type) where
  id : String
  embedding : List Int
  metadata : μ

/-- A remote operation on the Pinecone service.  `deleteIndex` is included
so that "never deletes" is expressible; the code has no call that would
emit it. -/
inductive Effect (μ : Type) where
  | create (name : String) (dim : Nat) (metric : String) : Effect μ
  | upsert (name : String) (batch : List (String × List Int × μ)) : Effect μ
  | deleteIndex (name : String) : Effect μ

/-- `detect_dim` (src/pinecone_upload.py lines 15-21): dimension of the
first record's embedding; `none` models the `RuntimeError` on an empty
file. -/
def detect_dim (records : List (URec μ)) : Option Nat :=
  records.head?.map fun r => r.embedding.length

/-- The index-name resolution of `main` (src/pinecone_upload.py lines
74-91): keep the target name unless it already exists with a determined
dimension different from `dim` (redirect to `<name>-d<dim>`) or exists
with an undeterminable dimension (same redirect, fail-safe). -/
def resolveTarget (indexName : String) (existing : List String)
    (lookupDim : Option Nat) (dim : Nat) : String :=
  if indexName ∈ existing then
    match lookupDim with
    | some d => if d ≠ dim then indexName ++ "-d" ++ toString dim else indexName
    | none => indexName ++ "-d" ++ toString dim
  else indexName

/-- Fuel-indexed batching worker; each step consumes at least the head
element, so fuel `length` suffices. -/
def toBatchesFuel (bs : Nat) : Nat → List α → List (List α)
  | _, [] => []
  | 0, l => [l]
  | fuel + 1, x :: xs => (x :: xs.take (bs - 1)) :: toBatchesFuel bs fuel (xs.drop (bs - 1))

/-- `items[i:i+BATCH_SIZE]` batching of the upload loop
(src/pinecone_upload.py lines 116-119), for `BATCH_SIZE ≥ 1`. -/
def toBatches (bs : Nat) (l : List α) : List (List α) :=
  toBatchesFuel bs l.length l

/-- The effect trace of `main` (src/pinecone_upload.py lines 65-121):
resolve the target name, create it (dimension `dim`, cosine metric) if it
is not among the existing indexes, then upsert the records in batches.
An empty records file raises in `detect_dim` before any effect. -/
def uploaderEffects (indexName : String) (existing : List String)
    (lookupDim : Option Nat) (records : List (URec μ)) (batchSize : Nat) :
    List (Effect μ) :=
  match detect_dim records with
  | none => []
  | some dim =>
    let target := resolveTarget indexName existing lookupDim dim
    (if target ∈ existing then [] else [Effect.create target dim "cosine"]) ++
      (toBatches batchSize (records.map fun r => (r.id, r.embedding, r.metadata))).map
        (fun b => Effect.upsert target b)

/-- The index name an effect addresses. -/
def Effect.name : Effect μ → String
  | .create n _ _ => n
  | .upsert n _ => n
  | .deleteIndex n => n

theorem derived_name_ne (n : String) (d : Nat) : n ++ "-d" ++ toString d ≠ n := by
  intro h
  have hl := congrArg String.length h
  rw [String.length_append, String.length_append] at hl
  have : ("-d" : String).length = 2 := by decide
  omega

theorem uploaderEffects_names (indexName : String) (existing : List String)
    (lookupDim : Option Nat) (records : List (URec μ)) (batchSize : Nat)
    (e : Effect μ)
    (he : e ∈ uploaderEffects indexName existing lookupDim records batchSize) :
    ∃ dim, detect_dim records = some dim ∧
      e.name = resolveTarget indexName existing lookupDim dim := by
  cases hd : detect_dim records with
  | none => simp [uploaderEffects, hd] at he
  | some dim =>
    refine ⟨dim, rfl, ?_⟩
    simp only [uploaderEffects, hd] at he
    rcases List.mem_append.1 he with h | h
    · by_cases ht : resolveTarget indexName existing lookupDim dim ∈ existing
      · simp [ht] at h
      · simp only [ht, if_neg, if_false] at h
        simp at h
        rw [h]
        rfl
    · obtain ⟨b, _, hb⟩ := List.mem_map.1 h
      rw [← hb]
      rfl

/-- C5 (confirmed): for a non-empty embeddings file whose first record has
dimension `D = r0.embedding.length`: (1) if the target name already exists
and the dimension lookup either disagrees with `D` or returns nothing,
then every effect the uploader performs (creates and upserts alike)
addresses the derived name `<target>-d<D>`, never the pre-existing index;
(2) the uploader never performs a delete on any index; (3) if the resolved
target does not exist yet, the very first effect is its creation with
dimension `D` and the cosine metric, followed only by the batched upserts
to it. -/
theorem c5_dimension_reconciliation (μ : Type) (indexName : String)
    (existing : List String) (lookupDim : Option Nat)
    (r0 : URec μ) (rest : List (URec μ)) (batchSize : Nat) :
    (indexName ∈ existing →
      (lookupDim = none ∨ ∃ d, lookupDim = some d ∧ d ≠ r0.embedding.length) →
      ∀ e ∈ uploaderEffects indexName existing lookupDim (r0 :: rest) batchSize,
        Effect.name e = indexName ++ "-d" ++ toString r0.embedding.length ∧
        Effect.name e ≠ indexName) ∧
    (∀ n, Effect.deleteIndex n ∉
      uploaderEffects indexName existing lookupDim (r0 :: rest) batchSize) ∧
    (resolveTarget indexName existing lookupDim r0.embedding.length ∉ existing →
      uploaderEffects indexName existing lookupDim (r0 :: rest) batchSize =
        Effect.create (resolveTarget indexName existing lookupDim r0.embedding.length)
            r0.embedding.length "cosine" ::
          (toBatches batchSize
            ((r0 :: rest).map fun r => (r.id, r.embedding, r.metadata))).map
            (fun b => Effect.upsert
              (resolveTarget indexName existing lookupDim r0.embedding.length) b)) := by
  have hd : detect_dim (r0 :: rest) = some r0.embedding.length := rfl
  refine ⟨?_, ?_, ?_⟩
  · intro hin hdim e he
    obtain ⟨dim, hdd, hname⟩ :=
      uploaderEffects_names indexName existing lookupDim (r0 :: rest) batchSize e he
    rw [hd] at hdd
    cases hdd
    have htarget : resolveTarget indexName existing lookupDim r0.embedding.length =
        indexName ++ "-d" ++ toString r0.embedding.length := by
      rcases hdim with h | ⟨d, hld, hne⟩
      · simp [resolveTarget, hin, h]
      · simp [resolveTarget, hin, hld, hne]
    rw [hname, htarget]
    exact ⟨rfl, derived_name_ne indexName r0.embedding.length⟩
  · intro n hmem
    simp only [uploaderEffects, hd] at hmem
    rcases List.mem_append.1 hmem with h | h
    · by_cases ht : resolveTarget indexName existing lookupDim r0.embedding.length ∈ existing
      · simp [ht] at h
      · simp [ht] at h
    · obtain ⟨b, _, hb⟩ := List.mem_map.1 h
      cases hb
  · intro ht
    simp [uploaderEffects, hd, ht]

/-- C5 (witness): a concrete run with a pre-existing index
`"medibot-rag"` of determined dimension 1536 and a two-record file of
dimension 3 under batch size 100: everything is redirected to
`"medibot-rag-d3"`, which is created first with the cosine metric, no
delete happens, and nothing addresses `"medibot-rag"`. -/
theorem c5_dimension_reconciliation_witness :
    (∀ e ∈ uploaderEffects "medibot-rag" ["medibot-rag"] (some 1536)
        [⟨"a", [1, 2, 3], ()⟩, ⟨"b", [4, 5, 6], ()⟩] 100,
      Effect.name e = "medibot-rag-d3" ∧ Effect.name e ≠ "medibot-rag") ∧
    (∀ n, Effect.deleteIndex n ∉ uploaderEffects "medibot-rag" ["medibot-rag"]
      (some 1536) [⟨"a", [1, 2, 3], ()⟩, ⟨"b", [4, 5, 6], ()⟩] 100) ∧
    uploaderEffects "medibot-rag" ["medibot-rag"] (some 1536)
        [⟨"a", [1, 2, 3], ()⟩, ⟨"b", [4, 5, 6], ()⟩] 100 =
      [Effect.create "medibot-rag-d3" 3 "cosine",
        Effect.upsert "medibot-rag-d3"
          [("a", [1, 2, 3], ()), ("b", [4, 5, 6], ())]] := by
  have h := c5_dimension_reconciliation Unit "medibot-rag" ["medibot-rag"]
    (some 1536) ⟨"a", [1, 2, 3], ()⟩ [⟨"b", [4, 5, 6], ()⟩] 100
  refine ⟨?_, h.2.1, ?_⟩
  · intro e he
    exact h.1 (by decide) (Or.inr ⟨1536, rfl, by decide⟩) e he
  · have h3 := h.2.2 (by decide)
    rw [h3]
    rfl

/-! ## extract_texts.py: the word-chunking loop

The per-page loop of `extract_chunks_from_pdf_mupdf` (src/extract_texts.py
lines 40-55): starting at `i = 0`, emit `" ".join(words[i:i+chunk_size])
.strip()` when non-empty and advance `i` by `chunk_size - overlap` while
`i < len(words)`.  The loop is embedded with fuel (one unit per iteration;
`len(words)` suffices when `overlap < chunk_size`, since each iteration
advances by at least one word); `loopPos` separately models the evolution
of the loop index over the integers for the termination analysis. -/

/-- `words[i:i+chunk_size]`, the word window of one chunk. -/
def windowAt (chunk_size : Nat) (words : List String) (i : Nat) : List String :=
  (words.drop i).take chunk_size

/-- Fuel-indexed chunk loop; also drops chunks that are empty after
stripping (`if chunk_text:`). -/
def chunkTextsFuel (chunk_size overlap : Nat) (words : List String) :
    Nat → Nat → List String
  | 0, _ => []
  | fuel + 1, i =>
    if i < words.length then
      let ct := pyStrip (pyJoin " " (windowAt chunk_size words i))
      if ct = "" then
        chunkTextsFuel chunk_size overlap words fuel (i + (chunk_size - overlap))
      else ct :: chunkTextsFuel chunk_size overlap words fuel (i + (chunk_size - overlap))
    else []

/-- The chunk texts produced from one page's word list. -/
def extract_chunks_from_words (chunk_size overlap : Nat) (words : List String) :
    List String :=
  chunkTextsFuel chunk_size overlap words words.length 0

/-- The sequence of loop indexes visited by the chunk loop
(fuel-indexed like the loop itself). -/
def offsetsFuel (d N : Nat) : Nat → Nat → List Nat
  | 0, _ => []
  | fuel + 1, i => if i < N then i :: offsetsFuel d N fuel (i + d) else []

/-- The loop index `i` of the chunk loop after `n` iterations, over the
integers: `i = 0` initially and `i += (chunk_size - overlap)` per
iteration (in Python this difference may be zero or negative). -/
def loopPos (chunk_size overlap : Nat) : Nat → Int
  | 0 => 0
  | n + 1 => loopPos chunk_size overlap n + ((chunk_size : Int) - (overlap : Int))

theorem loopPos_eq (S O : Nat) (n : Nat) :
    loopPos S O n = n * ((S : Int) - (O : Int)) := by
  induction n with
  | zero => simp [loopPos]
  | succ n ih =>
    rw [loopPos, ih]
    push_cast
    ring

theorem chunkTextsFuel_eq_filter_map (S O : Nat) (words : List String) :
    ∀ fuel i, chunkTextsFuel S O words fuel i =
      ((offsetsFuel (S - O) words.length fuel i).map
        (fun j => pyStrip (pyJoin " " (windowAt S words j)))).filter
        (fun c => !(c == "")) := by
  intro fuel
  induction fuel with
  | zero => intro i; rfl
  | succ f ih =>
    intro i
    by_cases hi : i < words.length
    · simp only [chunkTextsFuel, offsetsFuel, if_pos hi, List.map_cons, List.filter_cons]
      by_cases hc : pyStrip (pyJoin " " (windowAt S words i)) = ""
      · simp [hc, ih]
      · simp [hc, ih]
    · simp [chunkTextsFuel, offsetsFuel, hi]

theorem offsetsFuel_get (d N : Nat) :
    ∀ fuel i k, N - i ≤ fuel → 0 < d →
      (offsetsFuel d N fuel i).get? k =
        if i + k * d < N then some (i + k * d) else none := by
  intro fuel
  induction fuel with
  | zero =>
    intro i k hf _
    have hN : N ≤ i := by omega
    rw [offsetsFuel, if_neg]
    · rfl
    · intro h
      exact absurd (lt_of_le_of_lt (Nat.le_add_right i (k * d)) h) (by omega)
  | succ f ih =>
    intro i k hf hd
    by_cases hi : i < N
    · rw [offsetsFuel, if_pos hi]
      cases k with
      | zero => simp [hi]
      | succ k =>
        have hrec := ih (i + d) k (by omega) hd
        have hstep : (i :: offsetsFuel d N f (i + d)).get? (k + 1) =
            (offsetsFuel d N f (i + d)).get? k := rfl
        rw [hstep, hrec]
        have harith : i + d + k * d = i + (k + 1) * d := by ring
        rw [harith]
    · rw [offsetsFuel, if_neg hi, if_neg]
      · rfl
      · intro h
        exact absurd (lt_of_le_of_lt (Nat.le_add_right i (k * d)) h) (by omega)

theorem windowAt_length_le (S : Nat) (words : List String) (i : Nat) :
    (windowAt S words i).length ≤ S := by
  simp only [windowAt, List.length_take]
  omega

theorem windowAt_overlap (S O : Nat) (hSO : O < S) (words : List String) (a : Nat)
    (hfull : (windowAt S words a).length = S) :
    (windowAt S words a).drop (S - O) = (windowAt S words (a + (S - O))).take O ∧
    ((windowAt S words a).drop (S - O)).length = O := by
  constructor
  · unfold windowAt
    rw [List.drop_take, List.drop_drop, List.take_take]
    congr 1
    omega
  · rw [List.length_drop, hfull]
    omega

/-- C6 (counterexample): with `S = 5`, `O = 4` (so `0 ≤ O < S`) and the
3-word page `["a", "b", "c"]`, the loop emits three chunks at offsets
0, 1, 2.  Chunks 0 and 1 are consecutive and chunk 1 is not the final
chunk, yet chunk 0 passes only its last 2 words `["b", "c"]` on to chunk 1
— not `O = 4` words: once the window runs past the tail, every remaining
chunk is truncated, so "consecutive chunks share exactly O words (except
possibly the final chunk)" fails on non-final pairs as well. -/
theorem c6_chunking_cex :
    extract_chunks_from_words 5 4 ["a", "b", "c"] = ["a b c", "b c", "c"] ∧
    (windowAt 5 ["a", "b", "c"] 0).drop (5 - 4) = ["b", "c"] ∧
    ((windowAt 5 ["a", "b", "c"] 0).drop (5 - 4)).length ≠ 4 := by decide

/-- C6 (amended): for `0 ≤ O < S`, the chunker emits, in order, the
non-empty stripped joins of the word windows at offsets
`0, S-O, 2(S-O), …` below the word count (conjuncts 1-2); every window
holds at most `S` words (conjunct 3); and whenever a chunk's window holds
the full `S` words, it shares exactly its last `O` words with the next
window (conjunct 4) — chunks whose window is already truncated by the end
of the page may share fewer than `O` words with their successor. -/
theorem c6_chunking_amended (S O : Nat) (words : List String) (hSO : O < S) :
    (extract_chunks_from_words S O words =
      ((offsetsFuel (S - O) words.length words.length 0).map
        (fun j => pyStrip (pyJoin " " (windowAt S words j)))).filter
        (fun c => !(c == ""))) ∧
    (∀ k, (offsetsFuel (S - O) words.length words.length 0).get? k =
      if k * (S - O) < words.length then some (k * (S - O)) else none) ∧
    (∀ i, (windowAt S words i).length ≤ S) ∧
    (∀ a, (windowAt S words a).length = S →
      (windowAt S words a).drop (S - O) = (windowAt S words (a + (S - O))).take O ∧
      ((windowAt S words a).drop (S - O)).length = O) := by
  refine ⟨?_, ?_, ?_, ?_⟩
  · exact chunkTextsFuel_eq_filter_map S O words words.length 0
  · intro k
    have h := offsetsFuel_get (S - O) words.length words.length 0 k
      (by omega) (by omega)
    simpa using h
  · exact windowAt_length_le S words
  · exact fun a ha => windowAt_overlap S O hSO words a ha

/-- C6 (witness): the amended statement at `S = 3`, `O = 1` on the 4-word
page `["x", "y", "z", "w"]`: chunks `"x y z"` and `"z w"` at offsets 0 and
2, and the full first window passes exactly its last word `["z"]` to the
second. -/
theorem c6_chunking_amended_witness :
    extract_chunks_from_words 3 1 ["x", "y", "z", "w"] = ["x y z", "z w"] ∧
    (windowAt 3 ["x", "y", "z", "w"] 0).drop 2 =
      (windowAt 3 ["x", "y", "z", "w"] 2).take 1 ∧
    ((windowAt 3 ["x", "y", "z", "w"] 0).drop 2).length = 1 := by
  have h := c6_chunking_amended 3 1 ["x", "y", "z", "w"] (by decide)
  refine ⟨?_, ?_, ?_⟩
  · rw [h.1]; decide
  · exact (h.2.2.2 0 (by decide)).1
  · exact (h.2.2.2 0 (by decide)).2

/-- C10 (confirmed): the chunk loop's index starts at 0 and gains
`chunk_size - overlap` per iteration; with `overlap < chunk_size` it
reaches `len(words) = N` after finitely many iterations (the loop guard
`i < len(words)` eventually fails), and this precondition is necessary:
with `overlap ≥ chunk_size` and a non-empty word list the index never
increases and stays below `N` forever, so the guard never fails. -/
theorem c10_loop_termination (S O N : Nat) (hN : 1 ≤ N) :
    (O < S → ∃ n, (N : Int) ≤ loopPos S O n) ∧
    (S ≤ O → ∀ n, loopPos S O n < (N : Int) ∧
      loopPos S O (n + 1) ≤ loopPos S O n) := by
  constructor
  · intro hSO
    refine ⟨N, ?_⟩
    rw [loopPos_eq]
    have h1 : (1 : Int) ≤ (S : Int) - (O : Int) := by
      have : (O : Int) < (S : Int) := by exact_mod_cast hSO
      omega
    have h2 : (0 : Int) ≤ (N : Int) := Int.ofNat_nonneg N
    nlinarith
  · intro hOS n
    have hle : (S : Int) - (O : Int) ≤ 0 := by
      have : (S : Int) ≤ (O : Int) := by exact_mod_cast hOS
      omega
    constructor
    · rw [loopPos_eq]
      have h2 : (0 : Int) ≤ (n : Int) := Int.ofNat_nonneg n
      have h3 : (n : Int) * ((S : Int) - (O : Int)) ≤ 0 := by
        exact mul_nonpos_of_nonneg_of_nonpos h2 hle
      have h4 : (1 : Int) ≤ (N : Int) := by exact_mod_cast hN
      omega
    · rw [loopPos]
      omega

/-- C10 (witness): at `S = 3`, `O = 1`, `N = 2`, both directions of the
termination statement. -/
theorem c10_loop_termination_witness :
    (1 < 3 → ∃ n, ((2 : Nat) : Int) ≤ loopPos 3 1 n) ∧
    (3 ≤ 1 → ∀ n, loopPos 3 1 n < ((2 : Nat) : Int) ∧
      loopPos 3 1 (n + 1) ≤ loopPos 3 1 n) :=
  c10_loop_termination 3 1 2 (by decide)
